import Mathlib

/-!
Shallow embedding of the formatxx C++ string-formatting library
(src/include/formatxx/format.h) together with proofs about the
behaviour its specification describes.

Characters of the templated `CharT` are modelled by Lean `Char`;
machine pointers by `Nat` addresses (offsets into an explicit
`List Char` memory when the pointee matters); `std::size_t`
arithmetic by naturals reduced modulo `2 ^ 64` where the source
relies on unsigned subtraction.

Definitions whose doc comment starts with `Modelled from the spec:`
embed parts of the library whose implementation is not present in the
header (only declared there); everything else is translated directly
from the header.
-/

namespace formatxx

/-- The null character `CharT(0)` used by the library as terminator. -/
def nulChar : Char := Char.ofNat 0

/-- The opening-brace character of the brace-style template language. -/
def lbrace : Char := Char.ofNat 123

/-- The closing-brace character of the brace-style template language. -/
def rbrace : Char := Char.ofNat 125

/-- Unsigned 64-bit (`std::size_t`) subtraction `a - b`, modelled on naturals. -/
def usub (a b : Nat) : Nat := (a + (2 ^ 64 - b % 2 ^ 64)) % 2 ^ 64

/-- Embedding of `basic_string_view` (format.h lines 68-87): a non-owning
pointer plus length pair.  Pointers are addresses (`Nat`). -/
structure basic_string_view where
  _begin : Nat
  _size : Nat
deriving DecidableEq

namespace basic_string_view

/-- Member `data()`: the stored pointer. -/
def data (v : basic_string_view) : Nat := v._begin

/-- Member `size()`: the stored length. -/
def size (v : basic_string_view) : Nat := v._size

/-- Member `empty()`: `_size == 0`. -/
def empty (v : basic_string_view) : Bool := v._size == 0

/-- Constructor `basic_string_view(CharT const* first, CharT const* last)`:
stores `first` and the pointer difference `last - first`. -/
def ofRange (first last : Nat) : basic_string_view := ⟨first, last - first⟩

/-- Constructor `basic_string_view(CharT const* nstr, std::size_t size)`. -/
def ofPtrLen (nstr : Nat) (size : Nat) : basic_string_view := ⟨nstr, size⟩

/-- Constructor `basic_string_view(CharT const* zstr)`: the length is
`std::char_traits<CharT>::length(zstr)`, i.e. the count obtained by
scanning the memory from `zstr` up to the first terminator. -/
def ofZstr (mem : List Char) (zstr : Nat) : basic_string_view :=
  ⟨zstr, ((mem.drop zstr).takeWhile (fun c => c != nulChar)).length⟩

/-- The implicitly-defined copy constructor: member-wise copy of the
pointer and the length (the pointed-to text is not duplicated). -/
def copy (v : basic_string_view) : basic_string_view := ⟨v._begin, v._size⟩

end basic_string_view

/-- Embedding of `basic_fixed_writer<CharT, SizeN>` (format.h lines 105-119):
`_buffer` models the `CharT _buffer[SizeN]` array (always `SizeN` cells) and
`_last` the offset of the `_last` cursor from the buffer start. -/
structure basic_fixed_writer (SizeN : Nat) where
  _last : Nat
  _buffer : List Char
deriving DecidableEq

namespace basic_fixed_writer

/-- Default construction: `_last = _buffer` and
`CharT _buffer[SizeN] = \x7bCharT(0),\x7d;`, which zero-initialises every cell. -/
def init (SizeN : Nat) : basic_fixed_writer SizeN :=
  ⟨0, List.replicate SizeN nulChar⟩

/-- Member `size()`: the pointer difference `_last - _buffer`. -/
def size {SizeN : Nat} (w : basic_fixed_writer SizeN) : Nat := w._last

/-- Member `clear()`: `_last = _buffer;` — only the cursor is reset. -/
def clear {SizeN : Nat} (w : basic_fixed_writer SizeN) : basic_fixed_writer SizeN :=
  { w with _last := 0 }

/-- Member `view()`: `basic_string_view(_buffer, _last)`, with the buffer
base identified with address `0`. -/
def view {SizeN : Nat} (w : basic_fixed_writer SizeN) : basic_string_view :=
  basic_string_view.ofRange 0 w._last

/-- Member `c_str()`: the character sequence starting at the buffer base
(the pointer is identified with the sequence it points at). -/
def c_str {SizeN : Nat} (w : basic_fixed_writer SizeN) : List Char := w._buffer

/-- Member `write(str)` (format.h lines 256-264):

    std::size_t const remaining = SizeN - size() - 1;
    std::size_t const length = remaining < str.size() ? remaining : str.size();
    std::memcpy(_last, str.data(), length * sizeof(CharT));
    _last += length;
    *_last = CharT(0);

The `memcpy` replaces the `length` cells at offset `_last`; the final store
places a terminator at the new cursor. -/
def write {SizeN : Nat} (w : basic_fixed_writer SizeN) (str : List Char) :
    basic_fixed_writer SizeN :=
  let remaining := usub (usub SizeN w._last) 1
  let length := if remaining < str.length then remaining else str.length
  let copied := w._buffer.take w._last ++ str.take length ++ w._buffer.drop (w._last + length)
  ⟨w._last + length, copied.set (w._last + length) nulChar⟩

end basic_fixed_writer

/-- States reachable from a default-constructed `basic_fixed_writer` by any
sequence of `write` and `clear` calls. -/
inductive Reachable (SizeN : Nat) : basic_fixed_writer SizeN → Prop
  | init : Reachable SizeN (basic_fixed_writer.init SizeN)
  | write (w : basic_fixed_writer SizeN) (str : List Char) :
      Reachable SizeN w → Reachable SizeN (w.write str)
  | clear (w : basic_fixed_writer SizeN) :
      Reachable SizeN w → Reachable SizeN w.clear

/-- Embedding of the enumeration overload of `format_value`
(format.h lines 181-185): it forwards to the `format_value` overload for the
enumeration's underlying integer type.  The writer type, the enumeration
type, its underlying type and the spec type are abstract; the resolved
integer overload is the parameter `format_value_int` and the
`std::underlying_type_t<EnumT>` conversion is the parameter `underlying`. -/
def format_value_enum {W E U S : Type} (format_value_int : W → U → S → W)
    (underlying : E → U) (out : W) (value : E) (spec : S) : W :=
  format_value_int out (underlying value) spec

/-- Embedding of the pointer overload of `format_value`
(format.h lines 187-191): it forwards to the `format_value` overload for
`void const*` after `static_cast<void const*>(value)`.  The pointer type is
abstract; the resolved `void const*` overload is the parameter
`format_value_voidptr` and the cast is the parameter `toVoidPtr`. -/
def format_value_pointer {W P A S : Type} (format_value_voidptr : W → A → S → W)
    (toVoidPtr : P → A) (out : W) (value : P) (spec : S) : W :=
  format_value_voidptr out (toVoidPtr value) spec

/-- Embedding of the `values[]` array built by `formatxx::format` and
`formatxx::printf` (format.h lines 229, 237, 250):
`\x7bstd::addressof(args)..., nullptr\x7d` — one opaque address per argument
followed by a null sentinel.  An argument is modelled as its
(address, thunk) pair. -/
def format_call_values {A T : Type} (args : List (A × T)) : List (Option A) :=
  args.map (fun a => some a.1) ++ [none]

/-- Embedding of the `funcs[]` array built by `formatxx::format` and
`formatxx::printf` (format.h lines 230, 238, 251):
`\x7b&_detail::format_value_thunk<CharT, Args>..., nullptr\x7d` — one
dispatch thunk per argument followed by a null sentinel. -/
def format_call_funcs {A T : Type} (args : List (A × T)) : List (Option T) :=
  args.map (fun a => some a.2) ++ [none]

/-- Embedding of the count `sizeof...(args)` passed to the engine
implementation (format.h lines 232, 240, 253). -/
def format_call_count {A T : Type} (args : List (A × T)) : Nat := args.length

/-- Decimal digit test used by the placeholder-index scanner. -/
def isDigitC (c : Char) : Bool := 48 ≤ c.toNat && c.toNat ≤ 57

/-- Numeric value of a decimal digit character. -/
def digitVal (c : Char) : Nat := c.toNat - 48

/-- Modelled from the spec: the scanner states of the brace-style engine
`format_impl`, whose implementation is not part of the header (only
declared).  `lit` and the remaining states refine the spec's
Literal/Placeholder two-state scan. -/
inductive BState
  | lit
  | sawOpen
  | sawClose
  | idxRead (acc : Nat)
  | specRead (idx : Nat) (isAuto : Bool) (acc : List Char)

/-- Modelled from the spec: the scan loop of the brace-style engine
`format_impl` (missing from the header; spec sections 4.5 and 6).  An
argument is modelled as its thunk, a function from the spec text inside the
placeholder to the characters the thunk writes.  The result is the produced
output paired with the list of argument indices whose thunks were invoked,
in order.  Template faults (unterminated placeholder, malformed index, lone
closing brace, out-of-range index) stop the scan, leaving the output
produced so far intact. -/
def formatBraceGo (args : List (List Char → List Char)) :
    BState → Nat → List Char → List Char × List Nat
  | _, _, [] => ([], [])
  | .lit, counter, c :: rest =>
    if c = lbrace then formatBraceGo args .sawOpen counter rest
    else if c = rbrace then formatBraceGo args .sawClose counter rest
    else
      let r := formatBraceGo args .lit counter rest
      (c :: r.1, r.2)
  | .sawOpen, counter, c :: rest =>
    if c = lbrace then
      let r := formatBraceGo args .lit counter rest
      (lbrace :: r.1, r.2)
    else if isDigitC c then
      formatBraceGo args (.idxRead (digitVal c)) counter rest
    else if c = rbrace then
      match args[counter]? with
      | some thunk =>
        let r := formatBraceGo args .lit (counter + 1) rest
        (thunk [] ++ r.1, counter :: r.2)
      | none => ([], [])
    else if c = ':' then
      formatBraceGo args (.specRead counter true []) counter rest
    else ([], [])
  | .sawClose, counter, c :: rest =>
    if c = rbrace then
      let r := formatBraceGo args .lit counter rest
      (rbrace :: r.1, r.2)
    else ([], [])
  | .idxRead acc, counter, c :: rest =>
    if isDigitC c then
      formatBraceGo args (.idxRead (acc * 10 + digitVal c)) counter rest
    else if c = rbrace then
      match args[acc]? with
      | some thunk =>
        let r := formatBraceGo args .lit counter rest
        (thunk [] ++ r.1, acc :: r.2)
      | none => ([], [])
    else if c = ':' then
      formatBraceGo args (.specRead acc false []) counter rest
    else ([], [])
  | .specRead idx isAuto acc, counter, c :: rest =>
    if c = rbrace then
      match args[idx]? with
      | some thunk =>
        let r := formatBraceGo args .lit (if isAuto then counter + 1 else counter) rest
        (thunk acc ++ r.1, idx :: r.2)
      | none => ([], [])
    else formatBraceGo args (.specRead idx isAuto (acc ++ [c])) counter rest

/-- Modelled from the spec: the brace-style engine `format_impl` (missing
from the header).  Starts in literal state with the auto-increment counter
at `0`; returns the output and the invoked-index log. -/
def format_impl (args : List (List Char → List Char)) (fmt : List Char) :
    List Char × List Nat :=
  formatBraceGo args .lit 0 fmt

/-- Characters that may appear in a printf specifier before the conversion
character: flags, width digits, the precision dot, and length qualifiers. -/
def isPreC (c : Char) : Bool :=
  c = '+' || c = ' ' || c = '#' || c = '-' || isDigitC c || c = '.' ||
  c = 'h' || c = 'l' || c = 'j' || c = 'z' || c = 't' || c = 'L'

/-- Modelled from the spec: the scanner states of the printf-style engine
`printf_impl`, whose implementation is not part of the header. -/
inductive PfState
  | lit
  | sawPct
  | spec (acc : List Char)

/-- Modelled from the spec: the scan loop of the printf-style engine
`printf_impl` (missing from the header; spec sections 4.6 and 6).  The
`next` counter is the index of the next unused argument; each parsed
specifier consumes one argument sequentially.  A doubled percent emits one
literal percent.  The specifier text (flags, width, precision, length and
the conversion character) is handed to the thunk.  Faults (lone trailing
percent, argument exhaustion) stop the scan. -/
def printfGo (args : List (List Char → List Char)) :
    PfState → Nat → List Char → List Char × List Nat
  | _, _, [] => ([], [])
  | .lit, next, c :: rest =>
    if c = '%' then printfGo args .sawPct next rest
    else
      let r := printfGo args .lit next rest
      (c :: r.1, r.2)
  | .sawPct, next, c :: rest =>
    if c = '%' then
      let r := printfGo args .lit next rest
      ('%' :: r.1, r.2)
    else if isPreC c then printfGo args (.spec [c]) next rest
    else
      match args[next]? with
      | some thunk =>
        let r := printfGo args .lit (next + 1) rest
        (thunk [c] ++ r.1, next :: r.2)
      | none => ([], [])
  | .spec acc, next, c :: rest =>
    if isPreC c then printfGo args (.spec (acc ++ [c])) next rest
    else
      match args[next]? with
      | some thunk =>
        let r := printfGo args .lit (next + 1) rest
        (thunk (acc ++ [c]) ++ r.1, next :: r.2)
      | none => ([], [])

/-- Modelled from the spec: the printf-style engine `printf_impl` (missing
from the header).  Starts in literal state with the next-argument counter
at `0`. -/
def printf_impl (args : List (List Char → List Char)) (fmt : List Char) :
    List Char × List Nat :=
  printfGo args .lit 0 fmt

/-- The five characters of the text `hello`. -/
def hello : List Char := ['h', 'e', 'l', 'l', 'o']

theorem usub_eq (a b : Nat) (hb : b ≤ a) (ha : a < 2 ^ 64) : usub a b = a - b := by
  unfold usub
  rw [Nat.mod_eq_of_lt (lt_of_le_of_lt hb ha)]
  have h : a + (2 ^ 64 - b) = (a - b) + 2 ^ 64 := by omega
  rw [h, Nat.add_mod_right]
  exact Nat.mod_eq_of_lt (by omega)

theorem take_set_of_le {α : Type} (l : List α) (i n : Nat) (a : α) (h : n ≤ i) :
    (l.set i a).take n = l.take n := by
  apply List.ext_getElem?
  intro j
  rw [List.getElem?_take, List.getElem?_take]
  by_cases hj : j < n
  · simp only [hj, if_pos]
    rw [List.getElem?_set_ne (by omega)]
  · simp [hj]

/-- Characterisation of `basic_fixed_writer.write` once the unsigned
subtractions are resolved under the size invariant. -/
theorem write_eq {SizeN : Nat} (w : basic_fixed_writer SizeN) (str : List Char)
    (hS : SizeN < 2 ^ 64) (hlast : w._last + 1 ≤ SizeN) :
    w.write str =
      ⟨w._last + min str.length (SizeN - w._last - 1),
       (w._buffer.take w._last ++ str.take (min str.length (SizeN - w._last - 1)) ++
         w._buffer.drop (w._last + min str.length (SizeN - w._last - 1))).set
           (w._last + min str.length (SizeN - w._last - 1)) nulChar⟩ := by
  have h1 : usub SizeN w._last = SizeN - w._last := usub_eq _ _ (by omega) hS
  have h2 : usub (SizeN - w._last) 1 = SizeN - w._last - 1 := usub_eq _ _ (by omega) (by omega)
  have h3 : (if SizeN - w._last - 1 < str.length then SizeN - w._last - 1 else str.length)
      = min str.length (SizeN - w._last - 1) := by
    split <;> omega
  simp only [basic_fixed_writer.write, h1, h2, h3]

theorem write_size {SizeN : Nat} (w : basic_fixed_writer SizeN) (str : List Char)
    (hS : SizeN < 2 ^ 64) (hlast : w._last + 1 ≤ SizeN) :
    (w.write str).size = w.size + min str.length (SizeN - w.size - 1) := by
  rw [basic_fixed_writer.size, basic_fixed_writer.size, write_eq w str hS hlast]

theorem write_buffer_length {SizeN : Nat} (w : basic_fixed_writer SizeN) (str : List Char)
    (hS : SizeN < 2 ^ 64) (hlast : w._last + 1 ≤ SizeN)
    (hbuf : w._buffer.length = SizeN) :
    (w.write str)._buffer.length = SizeN := by
  rw [write_eq w str hS hlast]
  simp only [List.length_set, List.length_append, List.length_take, List.length_drop, hbuf]
  omega

theorem write_view {SizeN : Nat} (w : basic_fixed_writer SizeN) (str : List Char)
    (hS : SizeN < 2 ^ 64) (hlast : w._last + 1 ≤ SizeN)
    (hbuf : w._buffer.length = SizeN) :
    (w.write str)._buffer.take (w.write str).size =
      w._buffer.take w.size ++ str.take (min str.length (SizeN - w.size - 1)) := by
  rw [basic_fixed_writer.size, basic_fixed_writer.size, write_eq w str hS hlast]
  set L := min str.length (SizeN - w._last - 1) with hL
  show ((w._buffer.take w._last ++ str.take L ++ w._buffer.drop (w._last + L)).set
      (w._last + L) nulChar).take (w._last + L) = w._buffer.take w._last ++ str.take L
  rw [take_set_of_le _ _ _ _ (le_refl _)]
  apply List.take_left'
  simp only [List.length_append, List.length_take]
  omega

theorem write_term {SizeN : Nat} (w : basic_fixed_writer SizeN) (str : List Char)
    (hS : SizeN < 2 ^ 64) (hlast : w._last + 1 ≤ SizeN)
    (hbuf : w._buffer.length = SizeN) :
    (w.write str)._buffer[(w.write str).size]? = some nulChar := by
  rw [basic_fixed_writer.size, write_eq w str hS hlast]
  set L := min str.length (SizeN - w._last - 1) with hL
  have hlen : (w._buffer.take w._last ++ str.take L ++
      w._buffer.drop (w._last + L)).length = SizeN := by
    simp only [List.length_append, List.length_take, List.length_drop, hbuf]
    omega
  have hlt : w._last + L < (w._buffer.take w._last ++ str.take L ++
      w._buffer.drop (w._last + L)).length := by
    rw [hlen]; omega
  rw [List.getElem?_set_eq_of_lt nulChar hlt]

theorem write_last_cell {SizeN : Nat} (w : basic_fixed_writer SizeN) (str : List Char)
    (hS : SizeN < 2 ^ 64) (hlast : w._last + 1 ≤ SizeN)
    (hbuf : w._buffer.length = SizeN)
    (hcell : w._buffer[SizeN - 1]? = some nulChar) :
    (w.write str)._buffer[SizeN - 1]? = some nulChar := by
  rw [write_eq w str hS hlast]
  set L := min str.length (SizeN - w._last - 1) with hL
  have hlen : (w._buffer.take w._last ++ str.take L ++
      w._buffer.drop (w._last + L)).length = SizeN := by
    simp only [List.length_append, List.length_take, List.length_drop, hbuf]
    omega
  by_cases hcase : w._last + L = SizeN - 1
  · have hlt : SizeN - 1 < (w._buffer.take w._last ++ str.take L ++
        w._buffer.drop (w._last + L)).length := by rw [hlen]; omega
    rw [← hcase] at hlt ⊢
    rw [List.getElem?_set_eq_of_lt nulChar hlt]
  · have hne : w._last + L ≠ SizeN - 1 := hcase
    rw [List.getElem?_set_ne hne]
    have hlen2 : (w._buffer.take w._last ++ str.take L).length = w._last + L := by
      simp only [List.length_append, List.length_take]
      omega
    rw [List.getElem?_append_right (by rw [hlen2]; omega), hlen2, List.getElem?_drop]
    have harith : w._last + L + (SizeN - 1 - (w._last + L)) = SizeN - 1 := by omega
    rw [harith]
    exact hcell

/-- The structural invariant of `basic_fixed_writer`: the cursor leaves at
least one cell for a terminator, the buffer has exactly `SizeN` cells, and
the final cell holds a terminator. -/
def Inv (SizeN : Nat) (w : basic_fixed_writer SizeN) : Prop :=
  w._last + 1 ≤ SizeN ∧ w._buffer.length = SizeN ∧ w._buffer[SizeN - 1]? = some nulChar

theorem Inv_init (SizeN : Nat) (h1 : 1 ≤ SizeN) : Inv SizeN (basic_fixed_writer.init SizeN) := by
  refine ⟨h1, by simp [basic_fixed_writer.init], ?_⟩
  simp only [basic_fixed_writer.init, List.getElem?_replicate]
  rw [if_pos (by omega)]

theorem Inv_write {SizeN : Nat} (w : basic_fixed_writer SizeN) (str : List Char)
    (hS : SizeN < 2 ^ 64) (hw : Inv SizeN w) : Inv SizeN (w.write str) := by
  obtain ⟨hlast, hbuf, hcell⟩ := hw
  refine ⟨?_, write_buffer_length w str hS hlast hbuf, write_last_cell w str hS hlast hbuf hcell⟩
  rw [write_eq w str hS hlast]
  show w._last + min str.length (SizeN - w._last - 1) + 1 ≤ SizeN
  have hmin : min str.length (SizeN - w._last - 1) ≤ SizeN - w._last - 1 :=
    min_le_right _ _
  omega

theorem Inv_clear {SizeN : Nat} (w : basic_fixed_writer SizeN) (hw : Inv SizeN w) :
    Inv SizeN w.clear := by
  obtain ⟨hlast, hbuf, hcell⟩ := hw
  refine ⟨?_, hbuf, hcell⟩
  simp only [basic_fixed_writer.clear]
  omega

theorem reachable_inv {SizeN : Nat} (hS : SizeN < 2 ^ 64) (h1 : 1 ≤ SizeN)
    (w : basic_fixed_writer SizeN) (hw : Reachable SizeN w) : Inv SizeN w := by
  induction hw with
  | init => exact Inv_init SizeN h1
  | write w str _ ih => exact Inv_write w str hS ih
  | clear w _ ih => exact Inv_clear w ih

/-- C1: for every capacity `SizeN` and every call to
`basic_fixed_writer::write` with a string `str`, the write appends exactly
`min(str.size(), SizeN - size() - 1)` characters to the buffer, silently
discarding the rest (the operation is total and signals nothing); in
particular a fixed writer of capacity 4 fed the text `hello` stores exactly
3 data characters plus a terminator and never writes past its capacity (the
buffer keeps exactly `SizeN` cells). -/
theorem C1_fixed_writer_write_truncates :
    (∀ (SizeN : Nat) (w : basic_fixed_writer SizeN) (str : List Char),
        SizeN < 2 ^ 64 → w._last + 1 ≤ SizeN → w._buffer.length = SizeN →
        (w.write str).size = w.size + min str.length (SizeN - w.size - 1) ∧
        (w.write str)._buffer.take (w.write str).size =
          w._buffer.take w.size ++ str.take (min str.length (SizeN - w.size - 1)) ∧
        (w.write str)._buffer.length = SizeN) ∧
    ((basic_fixed_writer.init 4).write hello).size = 3 ∧
    ((basic_fixed_writer.init 4).write hello)._buffer = ['h', 'e', 'l', nulChar] := by
  refine ⟨?_, by decide, by decide⟩
  intro SizeN w str hS hlast hbuf
  exact ⟨write_size w str hS hlast, write_view w str hS hlast hbuf,
    write_buffer_length w str hS hlast hbuf⟩

/-- Witness for C1: the general part applied to the fresh capacity-4 writer
and the text `hello`. -/
theorem C1_fixed_writer_write_truncates_witness :
    ((basic_fixed_writer.init 4).write hello).size =
      (basic_fixed_writer.init 4).size +
        min hello.length (4 - (basic_fixed_writer.init 4).size - 1) :=
  (C1_fixed_writer_write_truncates.1 4 (basic_fixed_writer.init 4) hello
    (by decide) (by decide) (by decide)).1

/-- C2 counterexample: after `write "ab"` followed by `clear`, the writer is
a reachable state whose buffer character at position `size()` is `'a'`, not
the null character — `clear` resets the cursor without writing a
terminator. -/
theorem C2_clear_terminator_counterexample :
    Reachable 4 (((basic_fixed_writer.init 4).write ['a', 'b']).clear) ∧
    ¬ ((((basic_fixed_writer.init 4).write ['a', 'b']).clear)._buffer[
        (((basic_fixed_writer.init 4).write ['a', 'b']).clear).size]? = some nulChar) :=
  ⟨Reachable.clear _ (Reachable.write _ _ Reachable.init), by decide⟩

/-- C2 (amended): after every operation on a `basic_fixed_writer` —
construction, any sequence of `write` calls, and `clear` — `size()` is at
most `SizeN - 1`, and the final buffer cell always holds the null character,
so `c_str()` always points at text that terminates within the capacity; the
buffer character at position `size()` is the null character after
construction and after every `write`, but `clear` only resets the cursor, so
after a `clear` the character at position `size()` may be stale data. -/
theorem C2_fixed_writer_invariants_amended (SizeN : Nat) (h1 : 1 ≤ SizeN)
    (hS : SizeN < 2 ^ 64) :
    (∀ w : basic_fixed_writer SizeN, Reachable SizeN w →
        w.size + 1 ≤ SizeN ∧ w._buffer.length = SizeN ∧
        w._buffer[SizeN - 1]? = some nulChar) ∧
    (basic_fixed_writer.init SizeN)._buffer[(basic_fixed_writer.init SizeN).size]? =
      some nulChar ∧
    (∀ (w : basic_fixed_writer SizeN) (str : List Char), Reachable SizeN w →
        (w.write str)._buffer[(w.write str).size]? = some nulChar) := by
  refine ⟨?_, ?_, ?_⟩
  · intro w hw
    exact reachable_inv hS h1 w hw
  · show (List.replicate SizeN nulChar)[0]? = some nulChar
    rw [List.getElem?_replicate, if_pos (by omega)]
  · intro w str hw
    obtain ⟨hlast, hbuf, _⟩ := reachable_inv hS h1 w hw
    exact write_term w str hS hlast hbuf

/-- Witness for C2 (amended) at capacity 4 after one write. -/
theorem C2_fixed_writer_invariants_amended_witness :
    ((basic_fixed_writer.init 4).write ['a', 'b']).size + 1 ≤ 4 :=
  ((C2_fixed_writer_invariants_amended 4 (by decide) (by decide)).1 _
    (Reachable.write _ _ Reachable.init)).1

/-- C10: a freshly constructed `basic_fixed_writer` is empty and terminated:
`size()` returns 0, `view()` returns an empty view, and `c_str()` points at
a null-terminated empty string (its first character is the zero-initialised
null character). -/
theorem C10_fresh_writer_empty (SizeN : Nat) (h1 : 1 ≤ SizeN) :
    (basic_fixed_writer.init SizeN).size = 0 ∧
    (basic_fixed_writer.init SizeN).view.empty = true ∧
    (basic_fixed_writer.init SizeN).c_str[0]? = some nulChar := by
  refine ⟨rfl, rfl, ?_⟩
  show (List.replicate SizeN nulChar)[0]? = some nulChar
  rw [List.getElem?_replicate, if_pos (by omega)]

/-- Witness for C10 at capacity 4. -/
theorem C10_fresh_writer_empty_witness :
    (basic_fixed_writer.init 4).size = 0 ∧
    (basic_fixed_writer.init 4).view.empty = true ∧
    (basic_fixed_writer.init 4).c_str[0]? = some nulChar :=
  C10_fresh_writer_empty 4 (by decide)

theorem takeWhile_before_nul (pre rest : List Char) (h : nulChar ∉ pre) :
    ((pre ++ nulChar :: rest).takeWhile (fun c => c != nulChar)).length = pre.length := by
  induction pre with
  | nil => simp [List.takeWhile_cons]
  | cons a pre ih =>
    simp only [List.mem_cons, not_or] at h
    obtain ⟨h1, h2⟩ := h
    simp only [List.cons_append, List.takeWhile_cons]
    rw [if_pos (by simp only [bne_iff_ne, ne_eq]; exact fun hh => h1 hh.symm)]
    simp only [List.length_cons, ih h2]

/-- C8: constructing a `basic_string_view` from a terminated character
sequence yields `size()` equal to the number of characters before the first
terminator; constructing from a (begin, end) pointer pair yields `size()`
equal to `end - begin`; constructing from a (pointer, length) pair stores
the given length; copying a view duplicates only the pointer and the length
(the copy points at the same underlying text); and `empty()` returns `true`
exactly when `size()` is 0. -/
theorem C8_string_view_ctors :
    (∀ (mem pre rest : List Char) (zstr : Nat),
        mem.drop zstr = pre ++ nulChar :: rest → nulChar ∉ pre →
        (basic_string_view.ofZstr mem zstr).size = pre.length) ∧
    (∀ first last, first ≤ last →
        (basic_string_view.ofRange first last).size = last - first) ∧
    (∀ nstr sz, (basic_string_view.ofPtrLen nstr sz).size = sz) ∧
    (∀ v : basic_string_view,
        (basic_string_view.copy v).data = v.data ∧
        (basic_string_view.copy v).size = v.size) ∧
    (∀ v : basic_string_view, v.empty = true ↔ v.size = 0) := by
  refine ⟨?_, fun _ _ _ => rfl, fun _ _ => rfl, fun _ => ⟨rfl, rfl⟩, ?_⟩
  · intro mem pre rest zstr hdecomp hnotin
    show ((mem.drop zstr).takeWhile (fun c => c != nulChar)).length = pre.length
    rw [hdecomp]
    exact takeWhile_before_nul pre rest hnotin
  · intro v
    show (v._size == 0) = true ↔ v._size = 0
    simp

/-- Witness for C8: the terminated sequence `hi\0` scanned from address 0
yields a view of size 2, and a (begin, end) pair (3, 7) yields size 4. -/
theorem C8_string_view_ctors_witness :
    (basic_string_view.ofZstr ['h', 'i', nulChar] 0).size = 2 ∧
    (basic_string_view.ofRange 3 7).size = 4 :=
  ⟨C8_string_view_ctors.1 ['h', 'i', nulChar] ['h', 'i'] [] 0 (by decide) (by decide),
   C8_string_view_ctors.2.1 3 7 (by decide)⟩

/-- C6: for every enumeration type, every value of it, every writer and
every spec view, the enumeration overload of `format_value` produces
exactly the output of the `format_value` overload for the enumeration's
underlying integer type applied to the converted value. -/
theorem C6_enum_renders_as_underlying {W E U S : Type}
    (format_value_int : W → U → S → W) (underlying : E → U)
    (out : W) (value : E) (spec : S) :
    format_value_enum format_value_int underlying out value spec =
      format_value_int out (underlying value) spec := rfl

/-- C7: for every pointer type and every pointer value, the pointer
overload of `format_value` renders the pointer as its address value —
identically to the `void const*` overload applied to the converted
pointer. -/
theorem C7_pointer_renders_as_address {W P A S : Type}
    (format_value_voidptr : W → A → S → W) (toVoidPtr : P → A)
    (out : W) (value : P) (spec : S) :
    format_value_pointer format_value_voidptr toVoidPtr out value spec =
      format_value_voidptr out (toVoidPtr value) spec := rfl

/-- C9: for every call with N arguments, the two parallel arrays handed to
the engine implementation each have length N + 1, the last slot of each is
the null sentinel, and the count passed alongside them equals N. -/
theorem C9_argument_arrays {A T : Type} (args : List (A × T)) :
    (format_call_values args).length = args.length + 1 ∧
    (format_call_funcs args).length = args.length + 1 ∧
    (format_call_values args).getLast? = some none ∧
    (format_call_funcs args).getLast? = some none ∧
    format_call_count args = args.length := by
  refine ⟨?_, ?_, ?_, ?_, rfl⟩
  · simp [format_call_values]
  · simp [format_call_funcs]
  · exact List.getLast?_concat _
  · exact List.getLast?_concat _

/-- C5: in the brace-style engine the doubled sequences of two opening or
two closing braces each emit exactly one literal brace, never beginning or
ending a placeholder (the scan continues in literal state, the counter
untouched); and in the printf-style engine a doubled percent emits exactly
one literal percent rather than starting a conversion specifier. -/
theorem C5_escape_sequences :
    (∀ (args : List (List Char → List Char)) (counter : Nat) (rest : List Char),
        formatBraceGo args .lit counter (lbrace :: lbrace :: rest) =
          (lbrace :: (formatBraceGo args .lit counter rest).1,
           (formatBraceGo args .lit counter rest).2)) ∧
    (∀ (args : List (List Char → List Char)) (counter : Nat) (rest : List Char),
        formatBraceGo args .lit counter (rbrace :: rbrace :: rest) =
          (rbrace :: (formatBraceGo args .lit counter rest).1,
           (formatBraceGo args .lit counter rest).2)) ∧
    (∀ (args : List (List Char → List Char)) (next : Nat) (rest : List Char),
        printfGo args .lit next ('%' :: '%' :: rest) =
          ('%' :: (printfGo args .lit next rest).1,
           (printfGo args .lit next rest).2)) :=
  ⟨fun _ _ _ => rfl, fun _ _ _ => rfl, fun _ _ _ => rfl⟩

/-- C3: an indexless placeholder resolves to the engine's internal counter
and the scan continues with the counter incremented by one, while an
explicit-index placeholder resolves to the written index and continues with
the counter unchanged (the counter is neither read nor mutated);
consequently the template of `\x7b\x7d \x7b1\x7d \x7b\x7d` with arguments
(A, B) yields `A B B`. -/
theorem C3_auto_increment_counter :
    (∀ (args : List (List Char → List Char)) (counter : Nat) (rest : List Char)
        (thunk : List Char → List Char), args[counter]? = some thunk →
        formatBraceGo args .lit counter (lbrace :: rbrace :: rest) =
          (thunk [] ++ (formatBraceGo args .lit (counter + 1) rest).1,
           counter :: (formatBraceGo args .lit (counter + 1) rest).2)) ∧
    (∀ (args : List (List Char → List Char)) (counter : Nat) (rest : List Char)
        (c : Char) (thunk : List Char → List Char), isDigitC c = true →
        args[digitVal c]? = some thunk →
        formatBraceGo args .lit counter (lbrace :: c :: rbrace :: rest) =
          (thunk [] ++ (formatBraceGo args .lit counter rest).1,
           digitVal c :: (formatBraceGo args .lit counter rest).2)) ∧
    (format_impl [fun _ => ['A'], fun _ => ['B']]
        [lbrace, rbrace, ' ', lbrace, '1', rbrace, ' ', lbrace, rbrace]).1 =
      ['A', ' ', 'B', ' ', 'B'] := by
  refine ⟨?_, ?_, by rfl⟩
  · intro args counter rest thunk hget
    have hstep : formatBraceGo args .lit counter (lbrace :: rbrace :: rest) =
        (match args[counter]? with
         | some t =>
           (t [] ++ (formatBraceGo args .lit (counter + 1) rest).1,
            counter :: (formatBraceGo args .lit (counter + 1) rest).2)
         | none => ([], [])) := rfl
    rw [hstep, hget]
  · intro args counter rest c thunk hdig hget
    have hc1 : ¬ (c = lbrace) := fun hh => absurd (hh ▸ hdig) (by decide)
    show formatBraceGo args .sawOpen counter (c :: rbrace :: rest) = _
    simp only [formatBraceGo]
    rw [if_neg hc1, if_pos hdig,
      if_neg (by decide : ¬ isDigitC rbrace = true), if_pos trivial, hget]

/-- Witness for C3: both placeholder-step properties applied to a concrete
one-argument call. -/
theorem C3_auto_increment_counter_witness :
    formatBraceGo [fun _ => ['A']] .lit 0 [lbrace, rbrace] =
      ((fun (_ : List Char) => ['A']) [] ++ (formatBraceGo [fun _ => ['A']] .lit 1 []).1,
       0 :: (formatBraceGo [fun _ => ['A']] .lit 1 []).2) :=
  C3_auto_increment_counter.1 [fun _ => ['A']] 0 [] (fun _ => ['A']) rfl

/-- C4: every argument index whose thunk the brace-style engine invokes is
strictly below the argument count, so a placeholder whose resolved index is
at or beyond the count — such as the template of `\x7b5\x7d` with only two
arguments — is a template fault that invokes no thunk and reads no argument
slot. -/
theorem C4_out_of_range_index_safe :
    (∀ (args : List (List Char → List Char)) (st : BState) (counter : Nat)
        (fmt : List Char) (i : Nat),
        i ∈ (formatBraceGo args st counter fmt).2 → i < args.length) ∧
    format_impl [fun _ => ['A'], fun _ => ['B']] [lbrace, '5', rbrace] = ([], []) := by
  refine ⟨?_, by rfl⟩
  intro args st counter fmt
  induction fmt generalizing st counter with
  | nil =>
    intro i hi
    cases st <;> simp [formatBraceGo] at hi
  | cons c rest ih =>
    intro i hi
    cases st with
    | lit =>
      simp only [formatBraceGo] at hi
      split at hi
      · exact ih _ _ _ hi
      · split at hi
        · exact ih _ _ _ hi
        · simp only [List.mem_cons] at hi
          exact ih _ _ _ hi
    | sawOpen =>
      simp only [formatBraceGo] at hi
      split at hi
      · exact ih _ _ _ hi
      · split at hi
        · exact ih _ _ _ hi
        · split at hi
          · split at hi
            · next t heq =>
              simp only [List.mem_cons] at hi
              rcases hi with hi | hi
              · subst hi
                exact (List.getElem?_eq_some.mp heq).1
              · exact ih _ _ _ hi
            · simp at hi
          · split at hi
            · exact ih _ _ _ hi
            · simp at hi
    | sawClose =>
      simp only [formatBraceGo] at hi
      split at hi
      · exact ih _ _ _ hi
      · simp at hi
    | idxRead acc =>
      simp only [formatBraceGo] at hi
      split at hi
      · exact ih _ _ _ hi
      · split at hi
        · split at hi
          · next t heq =>
            simp only [List.mem_cons] at hi
            rcases hi with hi | hi
            · subst hi
              exact (List.getElem?_eq_some.mp heq).1
            · exact ih _ _ _ hi
          · simp at hi
        · split at hi
          · exact ih _ _ _ hi
          · simp at hi
    | specRead idx isAuto acc =>
      simp only [formatBraceGo] at hi
      split at hi
      · split at hi
        · next t heq =>
          simp only [List.mem_cons] at hi
          rcases hi with hi | hi
          · subst hi
            exact (List.getElem?_eq_some.mp heq).1
          · exact ih _ _ _ hi
        · simp at hi
      · exact ih _ _ _ hi

/-- Witness for C4: the single invoked index of a concrete one-argument
call is below the argument count. -/
theorem C4_out_of_range_index_safe_witness :
    (0 : Nat) < ([fun _ => ['A']] : List (List Char → List Char)).length :=
  C4_out_of_range_index_safe.1 [fun _ => ['A']] .lit 0 [lbrace, rbrace] 0 (by decide)

end formatxx
